import Mathlib

/-!
Verification of the extraction-and-classification core of
`watch_almeida.py` (Almeida ticket-availability watcher).

The Python source is shallowly embedded below.  Machine strings are
modelled as Lean `String`/`List Char`; Python's `re` patterns (which are
fixed, concrete patterns in the source) are embedded as hand-rolled
backtracking matchers that follow the engine's leftmost-match,
first-alternative, greedy semantics; Python character classes `\s` and
`\d` are modelled over the character set the program manipulates
(ASCII whitespace, NBSP, ASCII digits).  Fallible Python code
(`try`/`except`, `int(...)`, dict lookup, regex non-match) is modelled
with `Option`.  All definitions are executable.
-/

/-! ## Basic Python string primitives -/

/-- Python regex `\s` / `str.strip()` whitespace, over the characters the
program manipulates: ASCII whitespace plus the non-breaking space. -/

def pyIsSpace (c : Char) : Bool :=
  c == ' ' || c == '\t' || c == '\n' || c == '\r' ||
  c == '\x0b' || c == '\x0c' || c == '\u00A0'

/-- Whether `needle` starts `hay` (exact characters). -/

def startsList : List Char → List Char → Bool
  | [], _ => true
  | _ :: _, [] => false
  | a :: as', b :: bs => a == b && startsList as' bs

/-- Whether `needle` occurs somewhere in `hay` (Python's `needle in hay`). -/

def subListIn (n : List Char) : List Char → Bool
  | [] => startsList n []
  | c :: rest => startsList n (c :: rest) || subListIn n rest

/-- Python `needle in hay` on strings. -/

def strHasSub (hay needle : String) : Bool :=
  subListIn needle.data hay.data

/-- Python `str.lower()` (ASCII case mapping, which covers every literal
the program compares against). -/

def pyLower (s : String) : String :=
  String.mk (s.data.map Char.toLower)

/-- Python `str.upper()` (ASCII case mapping). -/

def pyUpper (s : String) : String :=
  String.mk (s.data.map Char.toUpper)

/-- Python `str.strip()` on a character list. -/

def pyStrip (l : List Char) : List Char :=
  ((l.dropWhile pyIsSpace).reverse.dropWhile pyIsSpace).reverse

/-- Python `str.split()` (no argument): split on whitespace runs,
dropping empty pieces.  `cur` is the current token, reversed. -/

def splitWsGo : List Char → List Char → List (List Char)
  | [], cur => if cur == [] then [] else [cur.reverse]
  | c :: rest, cur =>
    if pyIsSpace c then
      if cur == [] then splitWsGo rest [] else cur.reverse :: splitWsGo rest []
    else splitWsGo rest (c :: cur)

/-- Python `s.split()` on a string. -/

def pySplitWs (s : String) : List String :=
  (splitWsGo s.data []).map String.mk

/-- Join string pieces with single spaces (`" ".join(...)`, and the shape
of the row parser's date reassembly). -/

def joinSp : List (List Char) → List Char
  | [] => []
  | [x] => x
  | x :: xs => x ++ ' ' :: joinSp xs

/-- Python `" ".join(s.split())`: whitespace normalisation used on row text. -/

def normText (s : String) : String :=
  String.mk (joinSp (splitWsGo s.data []))

/-- Python `s.replace(" ", "")`: removes space characters (U+0020) only. -/

def despace (s : String) : String :=
  String.mk (s.data.filter (fun c => c ≠ ' '))

/-! ## Status classification (`classify_status`, source lines 36-38, 67-77) -/

def NEG_WORDS : List String := ["sold out", "unavailable", "returns only"]

def NOT_ON_SALE_WORDS : List String := ["not on sale", "tickets not on sale"]

def POS_HINTS : List String :=
  ["book", "select", "choose seats", "reserve", "purchase", "available", "limited"]

/-- Source `classify_status(text, has_book)`. -/

def classify_status (text : String) (has_book : Bool) : String :=
  let low := pyLower text
  if NOT_ON_SALE_WORDS.any (fun w => strHasSub low w) then "Not on sale"
  else if strHasSub low "limited" then "Limited"
  else if NEG_WORDS.any (fun w => strHasSub low w) then "Sold out"
  else if has_book || POS_HINTS.any (fun h => strHasSub low h) then "Available"
  else "Unknown"

/-- The spec's positive hint words for rule 4 of the classifier
(§4.3 of the spec; note: no `"limited"` here). -/

def specPosHints : List String :=
  ["book", "select", "choose seats", "reserve", "purchase", "available"]

/-- Modelled from the spec's words (§4.3): the ordered rule set for the
status classifier, used to compare against `classify_status`. -/

def specClassify (text : String) (hasBookingLink : Bool) : String :=
  let low := pyLower text
  if strHasSub low "not on sale" || strHasSub low "tickets not on sale" then "Not on sale"
  else if strHasSub low "limited" then "Limited"
  else if strHasSub low "sold out" || strHasSub low "unavailable" || strHasSub low "returns only" then "Sold out"
  else if hasBookingLink || specPosHints.any (fun h => strHasSub low h) then "Available"
  else "Unknown"

/-! ## The performance-row pattern (`ROW_RE`, source lines 29-34)

`ROW_RE = (?:(?P<weekday>WD)\s+)?(?P<day>\d{1,2})\s+(?P<month>MO)\s+(?P<year>\d{4})
          \s*,?\s*(?P<time>\d{1,2}:\d{2}\s*(?:AM|PM|am|pm)?)`, with `re.I`,
used with `re.search`.  The matcher below reproduces the backtracking
engine's behaviour on this concrete pattern: alternatives are tried in
source order with full backtracking into the rest of the pattern, the
optional weekday group is tried greedily, `\d{1,2}` prefers two digits,
and the `\s+`/`\s*`/`,?`/meridiem steps are deterministic maximal munch
(exact here, because the token after each of them can never begin with a
character the munched class also matches). -/

/-- Case-insensitive literal match at the head of the input: returns the
consumed original characters and the rest.  Needles are lowercase. -/

def stripCI : List Char → List Char → Option (List Char × List Char)
  | [], s => some ([], s)
  | _ :: _, [] => none
  | n :: ns, c :: cs =>
    if c.toLower = n.toLower then
      (stripCI ns cs).map (fun pr => (c :: pr.1, pr.2))
    else none

/-- Try the alternatives of an alternation in source order; on a match,
run the continuation, and on its failure backtrack to the next
alternative (regex alternation semantics). -/

def tryAlts {R : Type} (alts : List (List Char)) (s : List Char)
    (k : List Char → List Char → Option R) : Option R :=
  match alts with
  | [] => none
  | a :: rest =>
    match stripCI a s with
    | some (cons, rst) =>
      match k cons rst with
      | some r => some r
      | none => tryAlts rest s k
    | none => tryAlts rest s k

/-- Greedy `\d{1,2}` with backtracking: prefer two digits, fall back to
one if the rest of the pattern fails. -/

def digits12 {R : Type} (s : List Char) (k : List Char → List Char → Option R) :
    Option R :=
  match s with
  | [] => none
  | [c1] => if c1.isDigit then k [c1] [] else none
  | c1 :: c2 :: rest =>
    if c1.isDigit then
      if c2.isDigit then
        match k [c1, c2] rest with
        | some r => some r
        | none => k [c1] (c2 :: rest)
      else k [c1] (c2 :: rest)
    else none

/-- Pattern `\d{n}`: exactly `n` digits. -/

def digitsExact {R : Type} : Nat → List Char → (List Char → List Char → Option R) → Option R
  | 0, s, k => k [] s
  | _ + 1, [], _ => none
  | n + 1, c :: rest, k =>
    if c.isDigit then digitsExact n rest (fun d r => k (c :: d) r) else none

/-- Pattern `\s+` (maximal munch; exact since the next pattern token is never
whitespace). -/

def spacePlus {R : Type} (s : List Char) (k : List Char → Option R) : Option R :=
  match s with
  | [] => none
  | c :: _ => if pyIsSpace c then k (s.dropWhile pyIsSpace) else none

/-- The trailing `(?:AM|PM|am|pm)?` of the time group (case-insensitive,
greedy): returns the consumed original characters, `[]` if absent. -/

def meridiem (s : List Char) : List Char :=
  match stripCI ['a', 'm'] s with
  | some (cons, _) => cons
  | none =>
    match stripCI ['p', 'm'] s with
    | some (cons, _) => cons
    | none => []

/-- Weekday alternation of `WEEKDAYS` (source line 29), lowercase, in
source order. -/

def WEEKDAY_ALTS : List (List Char) :=
  ["mon", "tue", "wed", "thu", "fri", "sat", "sun",
   "monday", "tuesday", "wednesday", "thursday", "friday", "saturday",
   "sunday"].map String.data

/-- Month alternation of `MONTHS` (source line 30), lowercase, in source
order. -/

def MONTH_ALTS : List (List Char) :=
  ["jan", "feb", "mar", "apr", "may", "jun", "jul", "aug", "sep", "oct",
   "nov", "dec",
   "january", "february", "march", "april", "may", "june", "july",
   "august", "september", "october", "november", "december"].map String.data

/-- The named captures of one `ROW_RE` match (original characters). -/

structure RowCaps where
  weekday : Option (List Char)
  day : List Char
  month : List Char
  year : List Char
  time : List Char
deriving DecidableEq

/-- Match `ROW_RE` from the day group onwards at the head of `s`
(`wd` is the already-captured weekday group, if any). -/

def matchRowFromDay (wd : Option (List Char)) (s : List Char) : Option RowCaps :=
  digits12 s (fun day s2 =>
    spacePlus s2 (fun s3 =>
      tryAlts MONTH_ALTS s3 (fun mon s4 =>
        spacePlus s4 (fun s5 =>
          digitsExact 4 s5 (fun yr s6 =>
            let s7 := s6.dropWhile pyIsSpace
            let s8 := match s7 with
              | ',' :: r => r
              | _ => s7
            let s9 := s8.dropWhile pyIsSpace
            digits12 s9 (fun hh s10 =>
              match s10 with
              | ':' :: s11 =>
                digitsExact 2 s11 (fun mm s12 =>
                  let sp := s12.takeWhile pyIsSpace
                  let rest := s12.dropWhile pyIsSpace
                  some ⟨wd, day, mon, yr, hh ++ ':' :: (mm ++ sp ++ meridiem rest)⟩)
              | _ => none))))))

/-- Match `ROW_RE` at the head of `s`: greedily try the optional weekday
group first, backtracking to the weekday-less form. -/

def matchRowAt (s : List Char) : Option RowCaps :=
  match tryAlts WEEKDAY_ALTS s
      (fun w s1 => spacePlus s1 (fun s2 => matchRowFromDay (some w) s2)) with
  | some r => some r
  | none => matchRowFromDay none s

/-- Source `ROW_RE.search`: leftmost match wins. -/

def rowSearch : List Char → Option RowCaps
  | [] => matchRowAt []
  | s@(_ :: rest) =>
    match matchRowAt s with
    | some m => some m
    | none => rowSearch rest

/-! ## The row parser (`parse_row_text`, source lines 55-65) -/

/-- Source `parse_row_text(text)`: `("", "")` on no match; on a
match, the date reassembled as
`f"{(weekday + ' ') if weekday else ''}{day} {month} {year}".strip()`
(the weekday itself stripped first) and the time as
`m.group("time").upper().replace(" ", "")`. -/

def parse_row_text (text : String) : String × String :=
  match rowSearch text.data with
  | none => ("", "")
  | some m =>
    let weekday := pyStrip (m.weekday.getD [])
    let datePre := (if weekday ≠ [] then weekday ++ [' '] else []) ++
      m.day ++ ' ' :: (m.month ++ ' ' :: m.year)
    let dateStr := pyStrip datePre
    let timeStr := (m.time.map Char.toUpper).filter (fun c => c ≠ ' ')
    (String.mk dateStr, String.mk timeStr)

/-- Modelled from the spec's words (§4.2): on a match the date is the
captured weekday (if present), day, month and year joined by single
spaces with no leading-space artifact, and the time is upper-cased with
space characters removed; both components empty on no match. -/

def specParseRow (text : String) : String × String :=
  match rowSearch text.data with
  | none => ("", "")
  | some m =>
    let pieces := (match m.weekday with
      | some w => [w]
      | none => []) ++ [m.day, m.month, m.year]
    (String.mk (joinSp pieces),
     String.mk ((m.time.map Char.toUpper).filter (fun c => c ≠ ' ')))

/-! ## The record model (`Perf`, source lines 16-22) -/

structure Perf where
  date : String
  time : String
  status : String
  href : String
  raw : String
deriving DecidableEq

/-- The deduplication identity tuple `(p.date, p.time, p.status, p.href)`
(source line 82); `raw` is excluded. -/

def perfKey (p : Perf) : String × String × String × String :=
  (p.date, p.time, p.status, p.href)

/-! ## Deduplication (`dedup`, source lines 79-86) -/

/-- The loop of `dedup`: `seen` is the set of already-seen identity
tuples (membership is all the source uses it for). -/

def dedupGo : List Perf → List (String × String × String × String) → List Perf
  | [], _ => []
  | p :: rest, seen =>
    if perfKey p ∈ seen then dedupGo rest seen
    else p :: dedupGo rest (perfKey p :: seen)

/-- Source `dedup(items)`. -/

def dedup (items : List Perf) : List Perf :=
  dedupGo items []

/-- Modelled from the spec's words (§4.4): keep the first occurrence of
each identity tuple, drop later duplicates. -/

def specFirstOccs : List Perf → List Perf
  | [] => []
  | p :: rest =>
    p :: specFirstOccs (rest.filter (fun q => perfKey q ≠ perfKey p))
termination_by l => l.length
decreasing_by
  exact Nat.lt_succ_of_le (List.length_filter_le _ _)

/-! ## The ordering function (`perf_sort_key`, source lines 40-53, 88-126) -/

/-- The `MONTH_NUM` dict (source lines 40-53), as an association list in
source order. -/

def MONTH_NUM : List (String × Int) :=
  [("jan", 1), ("january", 1), ("feb", 2), ("february", 2),
   ("mar", 3), ("march", 3), ("apr", 4), ("april", 4), ("may", 5),
   ("jun", 6), ("june", 6), ("jul", 7), ("july", 7),
   ("aug", 8), ("august", 8), ("sep", 9), ("sept", 9), ("september", 9),
   ("oct", 10), ("october", 10), ("nov", 11), ("november", 11),
   ("dec", 12), ("december", 12)]

/-- Digit-run value parser for Python `int()`: digits with single
underscores allowed between digit groups. -/

def pyIntGo : List Char → Bool → Nat → Option Nat
  | [], prevDigit, acc => if prevDigit then some acc else none
  | c :: rest, prevDigit, acc =>
    if c.isDigit then pyIntGo rest true (10 * acc + (c.toNat - 48))
    else if c = '_' ∧ prevDigit then pyIntGo rest false acc
    else none

/-- Python `int(s)` on a decimal string: surrounding whitespace stripped,
optional sign, at least one ASCII digit (`None` on failure, which the
source's `try`/`except` turns into the sentinel key). -/

def pyInt (s : String) : Option Int :=
  match pyStrip s.data with
  | '+' :: rest => (pyIntGo rest false 0).map Int.ofNat
  | '-' :: rest => (pyIntGo rest false 0).map (fun n => -(n : Int))
  | l => (pyIntGo l false 0).map Int.ofNat

/-- Numeral value of a digit group captured by the time regex. -/

def natOfDigits (l : List Char) : Nat :=
  l.foldl (fun a c => 10 * a + (c.toNat - 48)) 0

/-- Source `re.match(r"(\d{1,2}):(\d{2})(AM|PM)?", t, re.I)` (line 111):
anchored at the start, trailing characters ignored; returns
(hour value, minute value, meridiem group characters if present). -/

def sortTimeMatch (s : List Char) : Option (Nat × Nat × Option (List Char)) :=
  digits12 s (fun hh rest =>
    match rest with
    | ':' :: r2 =>
      digitsExact 2 r2 (fun mm r3 =>
        some (natOfDigits hh, natOfDigits mm,
          match meridiem r3 with
          | [] => none
          | a => some a))
    | _ => none)

/-- The 5-tuple sort key type `(year, month, day, hour, minute)`. -/

abbrev Int5 := Int × Int × Int × Int × Int

/-- The hour adjustment of `perf_sort_key` (source lines 116-122):
`ap = ap.upper(); if ap == "PM" and hour != 12: hour += 12;
if ap == "AM" and hour == 12: hour = 0`. -/

def hourAdjust (hour : Int) (ap : Option (List Char)) : Int :=
  match ap with
  | none => hour
  | some a =>
    let u := a.map Char.toUpper
    let h1 := if u = ['P', 'M'] ∧ hour ≠ 12 then hour + 12 else hour
    if u = ['A', 'M'] ∧ h1 = 12 then 0 else h1

/-- The date/time parsing body of `perf_sort_key` (source lines 93-123):
`None` models any exception reaching the `except` clause (wrong token
count, `int()` failure, `MONTH_NUM` key error, time regex non-match). -/

def dateTimeParse (p : Perf) : Option Int5 := do
  let (d, mo, y) ← match pySplitWs p.date with
    | [_, d, mo, y] => some (d, mo, y)
    | [d, mo, y] => some (d, mo, y)
    | _ => none
  let di ← pyInt d
  let mi ← MONTH_NUM.lookup (pyLower mo)
  let yi ← pyInt y
  let (h, mn, ap) ← sortTimeMatch (despace p.time).data
  pure (yi, mi, di, hourAdjust (Int.ofNat h) ap, Int.ofNat mn)

/-- Source `perf_sort_key(p)`: the parsed key, or the sentinel
`(9999, 12, 31, 23, 59)` on any parse failure. -/

def perf_sort_key (p : Perf) : Int5 :=
  (dateTimeParse p).getD (9999, 12, 31, 23, 59)

/-- Python tuple `<` on 5-tuples (lexicographic), as used by `sorted`. -/

def keyLt (a b : Int5) : Prop :=
  a.1 < b.1 ∨ (a.1 = b.1 ∧ (a.2.1 < b.2.1 ∨ (a.2.1 = b.2.1 ∧
    (a.2.2.1 < b.2.2.1 ∨ (a.2.2.1 = b.2.2.1 ∧
      (a.2.2.2.1 < b.2.2.2.1 ∨ (a.2.2.2.1 = b.2.2.2.1 ∧
        a.2.2.2.2 < b.2.2.2.2)))))))

instance keyLtDec (a b : Int5) : Decidable (keyLt a b) := by
  unfold keyLt; infer_instance

/-- One insertion step of a stable ascending sort by `perf_sort_key`:
the new element goes after every element it is not strictly below. -/

def insertPerf (a : Perf) : List Perf → List Perf
  | [] => [a]
  | b :: bs =>
    if keyLt (perf_sort_key a) (perf_sort_key b) then a :: b :: bs
    else b :: insertPerf a bs

/-- Source `sorted(perfs, key=perf_sort_key)`: Python's sort is exactly the
stable ascending sort by the key, modelled as stable insertion sort
(elements are inserted in original order, each after its equals). -/

def pySortPerfs (l : List Perf) : List Perf :=
  l.foldl (fun acc p => insertPerf p acc) []

/-! ## The extraction pipeline (`extract_from_frame`, source lines 130-192)

A page region (Playwright frame) is modelled as the data the source
reads from it: the element lists each row selector resolves to, each
row's collapsed inner text and its child anchors/buttons (visible text
plus `href` attribute, `none` when the attribute is missing), and the
inner texts of the coarse fallback containers.  The per-element
`try`/`except` guards of the source wrap collaborator I/O, which the
pure model has no failing counterpart for. -/

structure LinkEl where
  text : String
  href : Option String
deriving DecidableEq

structure RowEl where
  text : String
  anchors : List LinkEl
  buttons : List LinkEl
deriving DecidableEq

structure FrameModel where
  query : String → List RowEl
  blocks : List String

/-- Source `ROW_SELECTORS` (lines 130-135). -/

def ROW_SELECTORS : List String :=
  ["li.performance, li.performance-item, li.performanceListItem",
   ".performance-row, .performance, .performanceItem, .PerfRow",
   "table tr",
   "ul li, ol li"]

/-- The booking-hint test on a child link's text (source line 158):
`any(h in t for h in ("book", "select", "purchase", "choose", "tickets"))`
on the lower-cased link text. -/

def linkTextQualifies (t : String) : Bool :=
  ["book", "select", "purchase", "choose", "tickets"].any
    (fun h => strHasSub (pyLower t) h)

/-- Python `h.startswith("/")`. -/

def pyStartsWith (h pre : String) : Bool :=
  startsList pre.data h.data

/-- Relative-target resolution (source line 161). -/

def resolveHref (h : String) : String :=
  if pyStartsWith h "/" then "https://ticketing.almeida.co.uk" ++ h else h

/-- The inner link loop over one selector's links (source lines 156-162):
first link whose text qualifies **and** whose `href` attribute is
present and non-empty wins; a qualifying link without a usable target
does not stop the search. -/

def scanLinks : List LinkEl → Option String
  | [] => none
  | l :: rest =>
    if linkTextQualifies l.text then
      match l.href with
      | some h => if h ≠ "" then some (resolveHref h) else scanLinks rest
      | none => scanLinks rest
    else scanLinks rest

/-- The link search over a row (source lines 152-164): anchors first
(capped at 10), then buttons (capped at 10); `""` when none found. -/

def rowLink (r : RowEl) : String :=
  match scanLinks (r.anchors.take 10) with
  | some l => l
  | none => (scanLinks (r.buttons.take 10)).getD ""

/-- Processing of one Pass-1 row (source lines 146-171): skip empty
normalised text, find a booking-like link, skip rows the row parser
rejects, classify and build the record. -/

def extractRow (r : RowEl) : Option Perf :=
  let txt := normText r.text
  if txt = "" then none
  else
    let link := rowLink r
    let (d, t) := parse_row_text txt
    if d = "" ∧ t = "" then none
    else some ⟨d, t, classify_status txt (link ≠ ""), link, txt⟩

/-- Pass 1 (source lines 141-173): all selectors, each element list
capped at 300 rows. -/

def pass1 (f : FrameModel) : List Perf :=
  (ROW_SELECTORS.map (fun sel => ((f.query sel).take 300).filterMap extractRow)).flatten

/-- Source `re.split(r"[\n\r]+| {2,}|\t|NBSP", txt)` (line 185):
scan left to right; a run of CR/LF, a run of two or more spaces, a tab
or a non-breaking space each end the current piece.  `cur` is the
current piece, reversed. -/

def splitBlockGo : Nat → List Char → List Char → List (List Char)
  | 0, _, cur => [cur.reverse]
  | _ + 1, [], cur => [cur.reverse]
  | fuel + 1, c :: rest, cur =>
    if c = '\n' ∨ c = '\r' then
      cur.reverse :: splitBlockGo fuel (rest.dropWhile (fun d => d = '\n' || d = '\r')) []
    else if c = ' ' ∧ rest.head? = some ' ' then
      cur.reverse :: splitBlockGo fuel (rest.dropWhile (fun d => d = ' ')) []
    else if c = '\t' ∨ c = '\u00A0' then
      cur.reverse :: splitBlockGo fuel rest []
    else splitBlockGo fuel rest (c :: cur)

/-- The Pass-2 line generator (source line 185):
`(l.strip() for l in re.split(...) if l.strip())`.  The fuel
`length + 1` is an upper bound on the scanner's steps (each step
consumes at least one character), so the zero-fuel case is never
reached. -/

def pyLines (b : String) : List String :=
  (splitBlockGo (b.data.length + 1) b.data []).filterMap (fun l =>
    let s := pyStrip l
    if s = [] then none else some (String.mk s))

/-- Processing of one Pass-2 line (source lines 186-190). -/

def lineToPerf (line : String) : Option Perf :=
  let (d, t) := parse_row_text line
  if d = "" ∧ t = "" then none
  else some ⟨d, t, classify_status line false, "", line⟩

/-- Pass 2 (source lines 179-190): coarse containers capped at 8. -/

def pass2 (f : FrameModel) : List Perf :=
  ((f.blocks.take 8).map (fun b => (pyLines b).filterMap lineToPerf)).flatten

/-- Source `extract_from_frame` (lines 137-192): Pass 1, short-circuit
through `dedup` when it found anything, else Pass 2 through `dedup`. -/

def extract_from_frame (f : FrameModel) : List Perf :=
  let perfs := pass1 f
  if perfs ≠ [] then dedup perfs else dedup (pass2 f)

/-! ## Capture invariants of a successful match -/

/-- Invariants of the captures of any successful `ROW_RE` match: the day
and year groups are non-empty digit strings, a captured weekday is a
non-empty whitespace-free string, and the time group is digits followed
by `:` and more characters. -/

def CapsInv (m : RowCaps) : Prop :=
  m.day ≠ [] ∧ (∀ c ∈ m.day, c.isDigit = true) ∧
  m.year ≠ [] ∧ (∀ c ∈ m.year, c.isDigit = true) ∧
  (∀ w, m.weekday = some w → w ≠ [] ∧ ∀ c ∈ w, pyIsSpace c = false) ∧
  ∃ a b, m.time = a ++ ':' :: b ∧ a ≠ [] ∧ (∀ c ∈ a, c.isDigit = true)

/-! ## Booking-link lemmas -/

/-- Modelled from the spec's words (the per-link decision of §4.5): a
link is used exactly when its text qualifies and its target is present
and non-empty, in which case the resolved target is produced. -/

def pickLink (l : LinkEl) : Option String :=
  if linkTextQualifies l.text then
    match l.href with
    | some h => if h ≠ "" then some (resolveHref h) else none
    | none => none
  else none

/-! ## Rendering (`write_summary`, source lines 210-229) -/

/-- Default value of `EVENT_URL` (source line 8). -/

def EVENT_URL : String := "https://ticketing.almeida.co.uk/events/7992"

/-- One markdown table row of `write_summary` (source line 227):
`f"| {p.date} | {p.time} | {p.status} | {link} |"` with
`link = p.href or ""` (identical to `p.href`, since an empty `href` is
falsy). -/

def summaryRow (p : Perf) : String :=
  "| " ++ p.date ++ " | " ++ p.time ++ " | " ++ p.status ++ " | " ++ p.href ++ " |"

/-- The `lines` list built by `write_summary` (source lines 214-227),
with the I/O-derived timestamp passed in. -/

def write_summary_lines (checkedAt : String) (perfs : List Perf) : List String :=
  let perfsSorted := pySortPerfs perfs
  ["## Ticket Availability\n",
   "**URL:** " ++ EVENT_URL ++ "\n",
   "**Checked at:** " ++ checkedAt ++ "\n",
   ""] ++
  (if perfsSorted = [] then ["_No performance rows found._"]
   else "| Date | Time | Status | Link |" ::
     "|------|------|--------|------|" ::
     perfsSorted.map summaryRow)

theorem classify_eq_spec (text : String) (has_book : Bool) :
    classify_status text has_book = specClassify text has_book := by
  unfold classify_status specClassify
  simp only [NOT_ON_SALE_WORDS, NEG_WORDS, POS_HINTS, specPosHints,
    List.any_cons, List.any_nil, Bool.or_false]
  cases hlim : strHasSub (pyLower text) "limited" <;>
    cases hnos : strHasSub (pyLower text) "not on sale" <;>
    cases htnos : strHasSub (pyLower text) "tickets not on sale" <;>
    simp [hlim, hnos, htnos, or_assoc]

/-! ## Character and strip helper lemmas -/

theorem pyIsSpace_cases {c : Char} (h : pyIsSpace c = true) :
    c = ' ' ∨ c = '\t' ∨ c = '\n' ∨ c = '\r' ∨ c = '\x0b' ∨ c = '\x0c' ∨ c = '\u00A0' := by
  simpa [pyIsSpace, or_assoc] using h

theorem isDigit_not_space {c : Char} (h : c.isDigit = true) : pyIsSpace c = false := by
  cases hs : pyIsSpace c with
  | false => rfl
  | true =>
    rcases pyIsSpace_cases hs with h' | h' | h' | h' | h' | h' | h' <;>
      subst h' <;> exact absurd h (by decide)

theorem toLower_keeps_space {c : Char} (h : pyIsSpace c = true) : c.toLower = c := by
  rcases pyIsSpace_cases h with h' | h' | h' | h' | h' | h' | h' <;> subst h' <;> decide

theorem nonspace_of_toLower {c : Char} (hn : pyIsSpace c.toLower = false) :
    pyIsSpace c = false := by
  cases hs : pyIsSpace c with
  | false => rfl
  | true => rw [toLower_keeps_space hs] at hn; rw [hs] at hn; exact hn.symm ▸ rfl

theorem dropWhile_eq_self_of_head {p : Char → Bool} {l : List Char}
    (h : ∀ c, l.head? = some c → p c = false) : l.dropWhile p = l := by
  cases l with
  | nil => rfl
  | cons c t => simp [List.dropWhile, h c rfl]

theorem pyStrip_eq_self {l : List Char}
    (h1 : ∀ c, l.head? = some c → pyIsSpace c = false)
    (h2 : ∀ c, l.getLast? = some c → pyIsSpace c = false) : pyStrip l = l := by
  unfold pyStrip
  rw [dropWhile_eq_self_of_head h1]
  rw [dropWhile_eq_self_of_head (by simpa using h2)]
  exact List.reverse_reverse l

theorem getLast?_mem_list {α : Type} {l : List α} {c : α} (h : l.getLast? = some c) :
    c ∈ l := by
  have hc : c ∈ l.getLast? := by rw [h]; rfl
  obtain ⟨hne, rfl⟩ := List.mem_getLast?_eq_getLast hc
  exact List.getLast_mem hne

theorem pyStrip_all_nonspace {l : List Char}
    (h : ∀ c ∈ l, pyIsSpace c = false) : pyStrip l = l := by
  refine pyStrip_eq_self (fun c hc => h c ?_) (fun c hc => h c (getLast?_mem_list hc))
  exact List.mem_of_mem_head? (by rw [hc]; rfl)

/-! ## Inversion lemmas for the pattern combinators -/

theorem stripCI_some : ∀ {needle s cons rest : List Char},
    stripCI needle s = some (cons, rest) →
    cons.map Char.toLower = needle.map Char.toLower ∧ s = cons ++ rest := by
  intro needle
  induction needle with
  | nil =>
    intro s cons rest h
    unfold stripCI at h
    cases h
    simp
  | cons n ns ih =>
    intro s cons rest h
    cases s with
    | nil => exact absurd h (by simp [stripCI])
    | cons c cs =>
      unfold stripCI at h
      by_cases hc : c.toLower = n.toLower
      · rw [if_pos hc] at h
        rcases Option.map_eq_some'.mp h with ⟨⟨co, r⟩, hrec, heq⟩
        cases heq
        obtain ⟨hmap, happ⟩ := ih hrec
        exact ⟨by simp [hmap, hc], by simp [happ]⟩
      · rw [if_neg hc] at h
        exact absurd h (by simp)

theorem tryAlts_some {R : Type} : ∀ {alts : List (List Char)} {s : List Char}
    {k : List Char → List Char → Option R} {r : R},
    tryAlts alts s k = some r →
    ∃ a cons rest, a ∈ alts ∧ stripCI a s = some (cons, rest) ∧ k cons rest = some r := by
  intro alts
  induction alts with
  | nil => intro s k r h; exact absurd h (by simp [tryAlts])
  | cons a rest ih =>
    intro s k r h
    unfold tryAlts at h
    revert h
    cases hstrip : stripCI a s with
    | none =>
      intro h
      obtain ⟨a', cons', rst', hmem, h1, h2⟩ := ih h
      exact ⟨a', cons', rst', List.mem_cons_of_mem _ hmem, h1, h2⟩
    | some pr =>
      obtain ⟨cons, rst⟩ := pr
      dsimp only
      cases hk : k cons rst with
      | none =>
        intro h
        obtain ⟨a', cons', rst', hmem, h1, h2⟩ := ih h
        exact ⟨a', cons', rst', List.mem_cons_of_mem _ hmem, h1, h2⟩
      | some r' =>
        intro h
        cases h
        exact ⟨a, cons, rst, List.mem_cons_self _ _, hstrip, hk⟩

theorem digits12_some {R : Type} {s : List Char} {k : List Char → List Char → Option R}
    {r : R} (h : digits12 s k = some r) :
    ∃ d rest, d ≠ [] ∧ (∀ c ∈ d, c.isDigit = true) ∧ k d rest = some r := by
  unfold digits12 at h
  revert h
  match s with
  | [] => intro h; exact absurd h (by simp)
  | [c1] =>
    dsimp only
    by_cases h1 : c1.isDigit
    · rw [if_pos h1]
      intro h
      exact ⟨[c1], [], by simp, by simpa using h1, h⟩
    · rw [if_neg h1]; intro h; exact absurd h (by simp)
  | c1 :: c2 :: rest =>
    dsimp only
    by_cases h1 : c1.isDigit
    · rw [if_pos h1]
      by_cases h2 : c2.isDigit
      · rw [if_pos h2]
        cases hk : k [c1, c2] rest with
        | some r' =>
          intro h
          cases h
          refine ⟨[c1, c2], rest, by simp, ?_, hk⟩
          intro c hc
          simp only [List.mem_cons, List.not_mem_nil, or_false] at hc
          rcases hc with rfl | rfl
          · exact h1
          · exact h2
        | none =>
          intro h
          exact ⟨[c1], c2 :: rest, by simp, by simpa using h1, h⟩
      · rw [if_neg h2]
        intro h
        exact ⟨[c1], c2 :: rest, by simp, by simpa using h1, h⟩
    · rw [if_neg h1]; intro h; exact absurd h (by simp)

theorem digitsExact_some {R : Type} : ∀ {n : Nat} {s : List Char}
    {k : List Char → List Char → Option R} {r : R},
    digitsExact n s k = some r →
    ∃ d rest, d.length = n ∧ (∀ c ∈ d, c.isDigit = true) ∧ k d rest = some r := by
  intro n
  induction n with
  | zero => intro s k r h; exact ⟨[], s, rfl, by simp, h⟩
  | succ n ih =>
    intro s k r h
    cases s with
    | nil => exact absurd h (by simp [digitsExact])
    | cons c rest =>
      unfold digitsExact at h
      by_cases hc : c.isDigit
      · rw [if_pos hc] at h
        obtain ⟨d, rst, hlen, hdig, hk⟩ := ih h
        refine ⟨c :: d, rst, by simp [hlen], ?_, hk⟩
        intro x hx
        simp only [List.mem_cons] at hx
        rcases hx with rfl | hx
        · exact hc
        · exact hdig _ hx
      · rw [if_neg hc] at h; exact absurd h (by simp)

theorem spacePlus_some {R : Type} {s : List Char} {k : List Char → Option R} {r : R}
    (h : spacePlus s k = some r) : ∃ rest, k rest = some r := by
  unfold spacePlus at h
  revert h
  match s with
  | [] => intro h; exact absurd h (by simp)
  | c :: t =>
    dsimp only
    by_cases hc : pyIsSpace c
    · rw [if_pos hc]; intro h; exact ⟨_, h⟩
    · rw [if_neg hc]; intro h; exact absurd h (by simp)

theorem weekday_alts_ok :
    ∀ a ∈ WEEKDAY_ALTS, a ≠ [] ∧ ∀ c ∈ a, pyIsSpace c.toLower = false := by decide

theorem stripCI_chars {cons a : List Char}
    (hmap : cons.map Char.toLower = a.map Char.toLower)
    (ha : a ≠ [] ∧ ∀ c ∈ a, pyIsSpace c.toLower = false) :
    cons ≠ [] ∧ ∀ c ∈ cons, pyIsSpace c = false := by
  constructor
  · intro hnil
    apply ha.1
    have := congrArg List.length hmap
    simp [hnil] at this
    exact List.eq_nil_of_length_eq_zero this.symm
  · intro c hc
    have h1 : c.toLower ∈ a.map Char.toLower := by
      rw [← hmap]; exact List.mem_map_of_mem _ hc
    obtain ⟨d, hd, hdc⟩ := List.mem_map.mp h1
    have := ha.2 d hd
    rw [hdc] at this
    exact nonspace_of_toLower this

theorem matchRowFromDay_inv {wd : Option (List Char)} {s : List Char} {m : RowCaps}
    (hwd : ∀ w, wd = some w → w ≠ [] ∧ ∀ c ∈ w, pyIsSpace c = false)
    (h : matchRowFromDay wd s = some m) : CapsInv m := by
  unfold matchRowFromDay at h
  obtain ⟨day, s2, hdne, hddig, h⟩ := digits12_some h
  obtain ⟨s3, h⟩ := spacePlus_some h
  obtain ⟨a, mon, s4, hmem, hstrip, h⟩ := tryAlts_some h
  obtain ⟨s5, h⟩ := spacePlus_some h
  obtain ⟨yr, s6, hylen, hydig, h⟩ := digitsExact_some h
  obtain ⟨hh, s10, hhne, hhdig, h⟩ := digits12_some h
  split at h
  · obtain ⟨mm, s12, hmlen, hmdig, h⟩ := digitsExact_some h
    cases h
    dsimp only [CapsInv]
    refine ⟨hdne, hddig, ?_, hydig, ?_, hh, _, rfl, hhne, hhdig⟩
    · intro hnil; rw [hnil] at hylen; simp at hylen
    · intro w hw; cases hw; exact hwd w rfl
  · exact absurd h (by simp)

theorem matchRowAt_inv {s : List Char} {m : RowCaps}
    (h : matchRowAt s = some m) : CapsInv m := by
  unfold matchRowAt at h
  revert h
  cases htry : tryAlts WEEKDAY_ALTS s
      (fun w s1 => spacePlus s1 (fun s2 => matchRowFromDay (some w) s2)) with
  | some r =>
    intro h
    cases h
    obtain ⟨a, cons, rest, hmem, hstrip, hk⟩ := tryAlts_some htry
    obtain ⟨s2, hk⟩ := spacePlus_some hk
    refine matchRowFromDay_inv (fun w hw => ?_) hk
    cases hw
    exact stripCI_chars (stripCI_some hstrip).1 (weekday_alts_ok a hmem)
  | none =>
    intro h
    exact matchRowFromDay_inv (fun w hw => by cases hw) h

theorem rowSearch_inv : ∀ {s : List Char} {m : RowCaps},
    rowSearch s = some m → CapsInv m := by
  intro s
  induction s with
  | nil => intro m h; exact matchRowAt_inv h
  | cons c rest ih =>
    intro m h
    unfold rowSearch at h
    revert h
    cases hat : matchRowAt (c :: rest) with
    | some m2 => intro h; cases h; exact matchRowAt_inv hat
    | none => intro h; exact ih h

/-! ## The row parser meets its specification -/

theorem mk_ne_empty {l : List Char} (h : l ≠ []) : String.mk l ≠ "" := by
  intro hcon
  exact h (congrArg String.data hcon)

theorem pyStrip_sandwich {x mid yr : List Char} (hx : x ≠ [])
    (hxh : ∀ c ∈ x, pyIsSpace c = false)
    (hy : yr ≠ []) (hydig : ∀ c ∈ yr, c.isDigit = true) :
    pyStrip (x ++ (mid ++ yr)) = x ++ (mid ++ yr) := by
  refine pyStrip_eq_self (fun c hc => ?_) (fun c hc => ?_)
  · obtain ⟨x0, xt, rfl⟩ := List.exists_cons_of_ne_nil hx
    simp only [List.cons_append, List.head?_cons, Option.some.injEq] at hc
    exact hc ▸ hxh x0 (List.mem_cons_self _ _)
  · rw [show x ++ (mid ++ yr) = (x ++ mid) ++ yr by simp,
      List.getLast?_append_of_ne_nil _ hy] at hc
    exact isDigit_not_space (hydig c (getLast?_mem_list hc))

theorem parse_row_text_eq_spec (t : String) : parse_row_text t = specParseRow t := by
  unfold parse_row_text specParseRow
  cases hrs : rowSearch t.data with
  | none => rfl
  | some m =>
    obtain ⟨hdne, hddig, hyne, hydig, hwd, htime⟩ := rowSearch_inv hrs
    have hdns : ∀ c ∈ m.day, pyIsSpace c = false :=
      fun c hc => isDigit_not_space (hddig c hc)
    cases hw : m.weekday with
    | none =>
      simp only [hw]
      refine Prod.ext (congrArg String.mk ?_) rfl
      have hre : m.day ++ ((' ' :: m.month ++ [' ']) ++ m.year) =
          m.day ++ ' ' :: (m.month ++ ' ' :: m.year) := by
        simp
      calc pyStrip (m.day ++ ' ' :: (m.month ++ ' ' :: m.year))
          = pyStrip (m.day ++ ((' ' :: m.month ++ [' ']) ++ m.year)) := by rw [hre]
        _ = m.day ++ ((' ' :: m.month ++ [' ']) ++ m.year) :=
            pyStrip_sandwich hdne hdns hyne hydig
        _ = m.day ++ ' ' :: (m.month ++ ' ' :: m.year) := hre
    | some w =>
      obtain ⟨hwne, hwns⟩ := hwd w hw
      simp only [hw]
      refine Prod.ext (congrArg String.mk ?_) rfl
      simp only [Option.getD_some, pyStrip_all_nonspace hwns]
      rw [if_pos hwne]
      have hre : w ++ [' '] ++ m.day ++ ' ' :: (m.month ++ ' ' :: m.year) =
          w ++ ((' ' :: (m.day ++ ' ' :: m.month) ++ [' ']) ++ m.year) := by
        simp
      calc pyStrip (w ++ [' '] ++ m.day ++ ' ' :: (m.month ++ ' ' :: m.year))
          = pyStrip (w ++ ((' ' :: (m.day ++ ' ' :: m.month) ++ [' ']) ++ m.year)) := by
            rw [hre]
        _ = w ++ ((' ' :: (m.day ++ ' ' :: m.month) ++ [' ']) ++ m.year) :=
            pyStrip_sandwich hwne hwns hyne hydig
        _ = w ++ ' ' :: (m.day ++ ' ' :: (m.month ++ ' ' :: m.year)) := by simp

/-! ## Row-parser consequences -/

theorem parse_row_text_none {t : String} (hrs : rowSearch t.data = none) :
    parse_row_text t = ("", "") := by
  unfold parse_row_text
  rw [hrs]

theorem parse_row_text_nonempty {t : String} {m : RowCaps}
    (hrs : rowSearch t.data = some m) :
    (parse_row_text t).1 ≠ "" ∧ (parse_row_text t).2 ≠ "" := by
  obtain ⟨hdne, hddig, hyne, hydig, hwd, a, b, htime, hane, hadig⟩ := rowSearch_inv hrs
  rw [parse_row_text_eq_spec]
  unfold specParseRow
  rw [hrs]
  constructor
  · apply mk_ne_empty
    cases hwm : m.weekday with
    | none => simp [joinSp, hdne]
    | some w => simp [joinSp]
  · apply mk_ne_empty
    intro hcon
    have hmem : (':' : Char) ∈ (m.time.map Char.toUpper).filter (fun c => c ≠ ' ') := by
      rw [htime]
      refine List.mem_filter.mpr ⟨List.mem_map.mpr ⟨':', by simp, rfl⟩, by decide⟩
    rw [hcon] at hmem
    exact absurd hmem (List.not_mem_nil _)

theorem parse_both_empty_iff (t : String) :
    (parse_row_text t).1 = "" ↔ (parse_row_text t).2 = "" := by
  cases hrs : rowSearch t.data with
  | none => rw [parse_row_text_none hrs]
  | some m =>
    obtain ⟨h1, h2⟩ := parse_row_text_nonempty hrs
    exact iff_of_false h1 h2

theorem both_or_neither {txt d t : String} (hdt : (d, t) = parse_row_text txt)
    (hne : ¬(d = "" ∧ t = "")) : d ≠ "" ∧ t ≠ "" := by
  have h1 : d = (parse_row_text txt).1 := by rw [← hdt]
  have h2 : t = (parse_row_text txt).2 := by rw [← hdt]
  have hiff := parse_both_empty_iff txt
  constructor
  · intro hc
    exact hne ⟨hc, by rw [h2, ← hiff, ← h1]; exact hc⟩
  · intro hc
    exact hne ⟨by rw [h1, hiff, ← h2]; exact hc, hc⟩

/-! ## Deduplication lemmas -/

theorem dedupGo_eq_spec (xs : List Perf) : ∀ seen,
    dedupGo xs seen = specFirstOccs (xs.filter (fun p => perfKey p ∉ seen)) := by
  induction xs with
  | nil => intro seen; simp [dedupGo, specFirstOccs]
  | cons p rest ih =>
    intro seen
    by_cases hmem : perfKey p ∈ seen
    · rw [show dedupGo (p :: rest) seen = dedupGo rest seen by simp [dedupGo, hmem]]
      rw [ih]
      congr 1
      simp [List.filter_cons, hmem]
    · rw [show dedupGo (p :: rest) seen = p :: dedupGo rest (perfKey p :: seen) by
        simp [dedupGo, hmem]]
      rw [ih]
      have hfc : (p :: rest).filter (fun q => perfKey q ∉ seen) =
          p :: rest.filter (fun q => perfKey q ∉ seen) := by
        simp [List.filter_cons, hmem]
      rw [hfc]
      rw [show specFirstOccs (p :: rest.filter (fun q => perfKey q ∉ seen)) =
          p :: specFirstOccs ((rest.filter (fun q => perfKey q ∉ seen)).filter
            (fun q => perfKey q ≠ perfKey p)) by rw [specFirstOccs]]
      congr 2
      rw [List.filter_filter]
      apply List.filter_congr
      intro q _
      simp [List.mem_cons, not_or, Bool.and_comm]

theorem dedup_eq_specFirstOccs (xs : List Perf) : dedup xs = specFirstOccs xs := by
  unfold dedup
  rw [dedupGo_eq_spec]
  congr 1
  simp

theorem dedupGo_sublist (xs : List Perf) : ∀ seen, List.Sublist (dedupGo xs seen) xs := by
  induction xs with
  | nil => intro seen; simp [dedupGo]
  | cons p rest ih =>
    intro seen
    by_cases hmem : perfKey p ∈ seen
    · rw [show dedupGo (p :: rest) seen = dedupGo rest seen by simp [dedupGo, hmem]]
      exact (ih seen).cons p
    · rw [show dedupGo (p :: rest) seen = p :: dedupGo rest (perfKey p :: seen) by
        simp [dedupGo, hmem]]
      exact (ih _).cons₂ p

theorem dedup_sublist (xs : List Perf) : List.Sublist (dedup xs) xs :=
  dedupGo_sublist xs []

theorem dedup_mem {xs : List Perf} {p : Perf} (h : p ∈ dedup xs) : p ∈ xs :=
  (dedup_sublist xs).subset h

theorem dedupGo_not_seen (xs : List Perf) : ∀ seen p, p ∈ dedupGo xs seen →
    perfKey p ∉ seen := by
  induction xs with
  | nil => intro seen p h; simp [dedupGo] at h
  | cons q rest ih =>
    intro seen p h
    by_cases hmem : perfKey q ∈ seen
    · rw [show dedupGo (q :: rest) seen = dedupGo rest seen by simp [dedupGo, hmem]] at h
      exact ih seen p h
    · rw [show dedupGo (q :: rest) seen = q :: dedupGo rest (perfKey q :: seen) by
        simp [dedupGo, hmem]] at h
      rcases List.mem_cons.mp h with rfl | h2
      · exact hmem
      · intro hc
        exact ih _ p h2 (List.mem_cons_of_mem _ hc)

theorem dedupGo_pairwise (xs : List Perf) : ∀ seen,
    List.Pairwise (fun a b => perfKey a ≠ perfKey b) (dedupGo xs seen) := by
  induction xs with
  | nil => intro seen; simp [dedupGo]
  | cons q rest ih =>
    intro seen
    by_cases hmem : perfKey q ∈ seen
    · rw [show dedupGo (q :: rest) seen = dedupGo rest seen by simp [dedupGo, hmem]]
      exact ih seen
    · rw [show dedupGo (q :: rest) seen = q :: dedupGo rest (perfKey q :: seen) by
        simp [dedupGo, hmem]]
      refine List.Pairwise.cons (fun b hb => ?_) (ih _)
      have := dedupGo_not_seen rest _ b hb
      intro hc
      exact this (hc ▸ List.mem_cons_self _ _)

theorem dedupGo_fresh (xs : List Perf) : ∀ seen,
    (∀ p ∈ xs, perfKey p ∉ seen) →
    List.Pairwise (fun a b => perfKey a ≠ perfKey b) xs →
    dedupGo xs seen = xs := by
  induction xs with
  | nil => intro seen _ _; rfl
  | cons p rest ih =>
    intro seen hfresh hpw
    have hp : perfKey p ∉ seen := hfresh p (List.mem_cons_self _ _)
    rw [show dedupGo (p :: rest) seen = p :: dedupGo rest (perfKey p :: seen) by
      simp [dedupGo, hp]]
    congr 1
    refine ih _ (fun q hq => ?_) (List.Pairwise.of_cons hpw)
    intro hc
    rcases List.mem_cons.mp hc with heq | hin
    · exact (List.rel_of_pairwise_cons hpw hq) heq.symm
    · exact hfresh q (List.mem_cons_of_mem _ hq) hin

theorem dedup_idem (xs : List Perf) : dedup (dedup xs) = dedup xs :=
  dedupGo_fresh _ [] (by simp) (dedupGo_pairwise xs [])

/-! ## Sort lemmas -/

theorem insertPerf_perm (a : Perf) : ∀ l, List.Perm (insertPerf a l) (a :: l) := by
  intro l
  induction l with
  | nil => exact List.Perm.refl _
  | cons b bs ih =>
    unfold insertPerf
    split
    · exact List.Perm.refl _
    · exact (List.Perm.cons b ih).trans (List.Perm.swap a b bs)

theorem foldl_insert_perm (l : List Perf) : ∀ acc,
    List.Perm (l.foldl (fun acc p => insertPerf p acc) acc) (acc ++ l) := by
  induction l with
  | nil => intro acc; simp
  | cons p rest ih =>
    intro acc
    refine (ih (insertPerf p acc)).trans ?_
    refine (List.Perm.append_right rest (insertPerf_perm p acc)).trans ?_
    exact List.perm_middle.symm

theorem pySortPerfs_perm (l : List Perf) : List.Perm (pySortPerfs l) l := by
  have := foldl_insert_perm l []
  simpa [pySortPerfs] using this

theorem pySortPerfs_ne_nil {l : List Perf} (h : l ≠ []) : pySortPerfs l ≠ [] := by
  intro hc
  apply h
  have := (pySortPerfs_perm l).length_eq
  rw [hc] at this
  exact List.eq_nil_of_length_eq_zero this.symm

/-! ## Pipeline lemmas -/

theorem pass2_mem {f : FrameModel} {p : Perf} (h : p ∈ pass2 f) :
    ∃ b ∈ f.blocks.take 8, ∃ line ∈ pyLines b, lineToPerf line = some p := by
  unfold pass2 at h
  rw [List.mem_flatten] at h
  obtain ⟨l, hl, hpl⟩ := h
  rw [List.mem_map] at hl
  obtain ⟨b, hb, rfl⟩ := hl
  rw [List.mem_filterMap] at hpl
  obtain ⟨line, hline, hsome⟩ := hpl
  exact ⟨b, hb, line, hline, hsome⟩

theorem pass1_mem {f : FrameModel} {p : Perf} (h : p ∈ pass1 f) :
    ∃ sel ∈ ROW_SELECTORS, ∃ r ∈ (f.query sel).take 300, extractRow r = some p := by
  unfold pass1 at h
  rw [List.mem_flatten] at h
  obtain ⟨l, hl, hpl⟩ := h
  rw [List.mem_map] at hl
  obtain ⟨sel, hsel, rfl⟩ := hl
  rw [List.mem_filterMap] at hpl
  obtain ⟨r, hr, hsome⟩ := hpl
  exact ⟨sel, hsel, r, hr, hsome⟩

theorem lineToPerf_props {line : String} {p : Perf} (h : lineToPerf line = some p) :
    p.href = "" ∧ p.raw = line ∧ p.status = classify_status line false ∧
    (p.date, p.time) = parse_row_text line ∧ ¬(p.date = "" ∧ p.time = "") := by
  unfold lineToPerf at h
  revert h
  cases hpt : parse_row_text line with
  | mk d t =>
    dsimp only
    intro h
    split at h
    · exact absurd h (by simp)
    · rename_i hcond
      cases h
      exact ⟨rfl, rfl, rfl, rfl, hcond⟩

theorem extractRow_props {r : RowEl} {p : Perf} (h : extractRow r = some p) :
    p.raw = normText r.text ∧
    p.status = classify_status (normText r.text) (rowLink r ≠ "") ∧
    p.href = rowLink r ∧
    (p.date, p.time) = parse_row_text (normText r.text) ∧
    ¬(p.date = "" ∧ p.time = "") := by
  unfold extractRow at h
  dsimp only at h
  split at h
  · exact absurd h (by simp)
  · revert h
    cases hpt : parse_row_text (normText r.text) with
    | mk d t =>
      dsimp only
      intro h
      split at h
      · exact absurd h (by simp)
      · rename_i hcond
        cases h
        exact ⟨rfl, rfl, rfl, rfl, hcond⟩

theorem extract_from_frame_pass1 {f : FrameModel} (h : pass1 f ≠ []) :
    extract_from_frame f = dedup (pass1 f) := by
  unfold extract_from_frame
  rw [if_pos h]

theorem extract_from_frame_pass2 {f : FrameModel} (h : pass1 f = []) :
    extract_from_frame f = dedup (pass2 f) := by
  unfold extract_from_frame
  rw [h]
  simp

theorem scanLinks_eq_findSome : ∀ ls : List LinkEl,
    scanLinks ls = ls.findSome? pickLink := by
  intro ls
  induction ls with
  | nil => rfl
  | cons l rest ih =>
    unfold scanLinks pickLink
    rw [List.findSome?_cons]
    by_cases hq : linkTextQualifies l.text
    · rw [if_pos hq, if_pos hq]
      cases hhr : l.href with
      | none => exact ih
      | some hv =>
        dsimp only
        by_cases hne : hv ≠ ""
        · rw [if_pos hne, if_pos hne]
        · rw [if_neg hne, if_neg hne]
          exact ih
    · rw [if_neg hq, if_neg hq]
      exact ih

theorem rowLink_eq (r : RowEl) :
    rowLink r = ((r.anchors.take 10 ++ r.buttons.take 10).findSome? pickLink).getD "" := by
  unfold rowLink
  rw [List.findSome?_append, scanLinks_eq_findSome, scanLinks_eq_findSome]
  cases List.findSome? pickLink (r.anchors.take 10) with
  | none => rfl
  | some v => rfl

/-! ## Substring characterisation -/

theorem startsList_iff : ∀ (n h : List Char),
    startsList n h = true ↔ ∃ rest, h = n ++ rest := by
  intro n
  induction n with
  | nil => intro h; simp [startsList]
  | cons a as ih =>
    intro h
    cases h with
    | nil => simp [startsList]
    | cons b bs =>
      unfold startsList
      rw [Bool.and_eq_true, beq_iff_eq, ih]
      constructor
      · rintro ⟨rfl, rest, rfl⟩
        exact ⟨rest, rfl⟩
      · rintro ⟨rest, heq⟩
        rw [List.cons_append] at heq
        injection heq with h1 h2
        exact ⟨h1.symm, rest, h2⟩

theorem subListIn_iff : ∀ (h n : List Char),
    subListIn n h = true ↔ ∃ pre post, h = pre ++ n ++ post := by
  intro h
  induction h with
  | nil =>
    intro n
    unfold subListIn
    rw [startsList_iff]
    constructor
    · rintro ⟨rest, hr⟩
      exact ⟨[], rest, by simpa using hr⟩
    · rintro ⟨pre, post, hp⟩
      rcases List.append_eq_nil.mp ((List.append_eq_nil.mp hp.symm).1).symm.symm with _
      have h1 := List.append_eq_nil.mp hp.symm
      have h2 := List.append_eq_nil.mp h1.1
      exact ⟨post, by rw [h2.2]; simpa using h1.2.symm⟩
  | cons c rest ih =>
    intro n
    rw [show subListIn n (c :: rest) = (startsList n (c :: rest) || subListIn n rest) from
      rfl]
    rw [Bool.or_eq_true, startsList_iff, ih]
    constructor
    · rintro (⟨r, hr⟩ | ⟨pre, post, hp⟩)
      · exact ⟨[], r, by simpa using hr⟩
      · exact ⟨c :: pre, post, by simp [hp]⟩
    · rintro ⟨pre, post, hp⟩
      cases pre with
      | nil => exact Or.inl ⟨post, by simpa using hp⟩
      | cons x xs =>
        rw [List.cons_append, List.cons_append] at hp
        injection hp with h1 h2
        exact Or.inr ⟨xs, post, by simp [h2]⟩

theorem strHasSub_tickets {low : String}
    (h : strHasSub low "tickets not on sale" = true) :
    strHasSub low "not on sale" = true := by
  unfold strHasSub at h ⊢
  rw [subListIn_iff] at h ⊢
  obtain ⟨pre, post, hp⟩ := h
  refine ⟨pre ++ "tickets ".data, post, ?_⟩
  rw [hp, show ("tickets not on sale".data : List Char) =
    "tickets ".data ++ "not on sale".data from rfl]
  simp

/-! ## Sort-key lemmas -/

theorem dateTimeParse_eq {p : Perf} {d mo y : String} {di mi yi : Int}
    {h mn : Nat} {ap : Option (List Char)}
    (hsplit : pySplitWs p.date = [d, mo, y] ∨ ∃ wd, pySplitWs p.date = [wd, d, mo, y])
    (hd : pyInt d = some di) (hmo : MONTH_NUM.lookup (pyLower mo) = some mi)
    (hy : pyInt y = some yi)
    (ht : sortTimeMatch (despace p.time).data = some (h, mn, ap)) :
    dateTimeParse p = some (yi, mi, di, hourAdjust (Int.ofNat h) ap, Int.ofNat mn) := by
  unfold dateTimeParse
  rcases hsplit with hs | ⟨wd, hs⟩ <;> rw [hs] <;> simp [hd, hmo, hy, ht]

theorem perf_sort_key_of_parse {p : Perf} {k : Int5} (h : dateTimeParse p = some k) :
    perf_sort_key p = k := by
  unfold perf_sort_key
  rw [h]
  rfl

theorem perf_sort_key_sentinel {p : Perf} (h : dateTimeParse p = none) :
    perf_sort_key p = (9999, 12, 31, 23, 59) := by
  unfold perf_sort_key
  rw [h]
  rfl

theorem sentinel_after_wellformed {p q : Perf} {k : Int5}
    (hp : dateTimeParse p = none) (hq : dateTimeParse q = some k) (hk : k.1 < 9999) :
    keyLt (perf_sort_key q) (perf_sort_key p) := by
  rw [perf_sort_key_of_parse hq, perf_sort_key_sentinel hp]
  exact Or.inl hk

theorem hourAdjust_none_eq (h : Int) : hourAdjust h none = h := rfl

theorem hourAdjust_am12 {a : List Char} (ha : a.map Char.toUpper = ['A', 'M']) :
    hourAdjust 12 (some a) = 0 := by
  unfold hourAdjust
  dsimp only
  rw [ha]
  decide

theorem hourAdjust_pm12 {a : List Char} (ha : a.map Char.toUpper = ['P', 'M']) :
    hourAdjust 12 (some a) = 12 := by
  unfold hourAdjust
  dsimp only
  rw [ha]
  decide

theorem hourAdjust_pm {a : List Char} {n : Int} (hn : n ≠ 12)
    (ha : a.map Char.toUpper = ['P', 'M']) : hourAdjust n (some a) = n + 12 := by
  unfold hourAdjust
  dsimp only
  rw [ha]
  simp [hn]

theorem hourAdjust_am {a : List Char} {n : Int} (hn : n ≠ 12)
    (ha : a.map Char.toUpper = ['A', 'M']) : hourAdjust n (some a) = n := by
  unfold hourAdjust
  dsimp only
  rw [ha]
  simp [hn]

/-! ## Renderer lemmas -/

theorem summaryRow_pipes (p : Perf) :
    (summaryRow p).data.count '|' =
      5 + p.date.data.count '|' + p.time.data.count '|' +
        p.status.data.count '|' + p.href.data.count '|' := by
  unfold summaryRow
  simp only [String.data_append, List.count_append]
  have h1 : ("| ".data).count '|' = 1 := by decide
  have h2 : (" | ".data).count '|' = 1 := by decide
  have h3 : (" |".data).count '|' = 1 := by decide
  simp only [h1, h2, h3]
  omega

theorem write_summary_table {cAt : String} {perfs : List Perf} (h : perfs ≠ []) :
    write_summary_lines cAt perfs =
      ["## Ticket Availability\n", "**URL:** " ++ EVENT_URL ++ "\n",
       "**Checked at:** " ++ cAt ++ "\n", ""] ++
      "| Date | Time | Status | Link |" ::
      "|------|------|--------|------|" :: (pySortPerfs perfs).map summaryRow := by
  unfold write_summary_lines
  dsimp only
  rw [if_neg (pySortPerfs_ne_nil h)]

/-! ## C10 helper -/

theorem extract_mem_nonempty {f : FrameModel} {p : Perf}
    (h : p ∈ extract_from_frame f) : p.date ≠ "" ∧ p.time ≠ "" := by
  unfold extract_from_frame at h
  dsimp only at h
  split at h
  · have hp := dedup_mem h
    obtain ⟨sel, _, r, _, hex⟩ := pass1_mem hp
    obtain ⟨_, _, _, hdt, hne⟩ := extractRow_props hex
    exact both_or_neither hdt hne
  · have hp := dedup_mem h
    obtain ⟨b, _, line, _, hl⟩ := pass2_mem hp
    obtain ⟨_, _, _, hdt, hne⟩ := lineToPerf_props hl
    exact both_or_neither hdt hne

/-! ## Claims -/

/-- Claim C1, counterexample: the text `"limited sold out book"` contains
both `"sold out"` and `"book"`, yet `classify_status` with a booking link
returns `"Limited"`, not `"Sold out"` — the claim's universal "for any
text containing both ... returns Sold-out" fails, because the `"limited"`
rule precedes the sold-out rule. -/

theorem C1_counterexample :
    classify_status "limited sold out book" true = "Limited" ∧
    strHasSub (pyLower "limited sold out book") "sold out" = true ∧
    strHasSub (pyLower "limited sold out book") "book" = true ∧
    "Limited" ≠ "Sold out" := by decide

/-- Claim C1 (amended): `classify_status` returns the status given by the
first matching rule of the fixed precedence order (not-on-sale words,
then `"limited"`, then sold-out words, then booking link or positive
hint, else Unknown, case-insensitively) — stated as equality with the
rule set `specClassify` written from the spec; and for any text
containing both `"sold out"` and `"book"` but neither `"limited"` nor
`"not on sale"`, classification with a booking link still yields
`"Sold out"`. -/

theorem C1_theorem :
    (∀ (text : String) (hasBook : Bool),
      classify_status text hasBook = specClassify text hasBook) ∧
    (∀ text : String,
      strHasSub (pyLower text) "sold out" = true →
      strHasSub (pyLower text) "book" = true →
      strHasSub (pyLower text) "limited" = false →
      strHasSub (pyLower text) "not on sale" = false →
      classify_status text true = "Sold out") := by
  refine ⟨classify_eq_spec, fun text hsold hbook hlim hnos => ?_⟩
  have htnos : strHasSub (pyLower text) "tickets not on sale" = false := by
    cases hx : strHasSub (pyLower text) "tickets not on sale"
    · rfl
    · exact absurd (strHasSub_tickets hx) (by simp [hnos])
  unfold classify_status
  simp [NOT_ON_SALE_WORDS, NEG_WORDS, hnos, htnos, hlim, hsold]

/-- Claim C1, witness: a concrete sold-out-and-book text classified with
a booking link. -/

theorem C1_witness : classify_status "sold out book" true = "Sold out" :=
  C1_theorem.2 "sold out book" (by decide) (by decide) (by decide) (by decide)

/-- Claim C2, counterexample: the matched time group can contain a tab
(the regex `\s*` inside the time group matches it), and
`.replace(" ", "")` removes only space characters, so the returned time
still contains whitespace — refuting "the time ... with all whitespace
removed". -/

theorem C2_counterexample :
    parse_row_text "1 Nov 2025 19:30\tpm" = ("1 Nov 2025", "19:30\tPM") ∧
    '\t' ∈ (parse_row_text "1 Nov 2025 19:30\tpm").2.data ∧
    pyIsSpace '\t' = true := by decide

/-- Claim C2 (amended): for every input string, `parse_row_text` returns
both components empty exactly when the row pattern does not match (and
being a total function it never raises); on a match it returns the date
re-assembled from the captured weekday (if present), day, month and year
joined by single spaces with no leading-space artifact, and the time
upper-cased with all space characters (U+0020) removed (other whitespace
is preserved) — stated as equality with `specParseRow`; in particular
`"Sat 15 November 2025, 7:30pm"` yields
(`"Sat 15 November 2025"`, `"7:30PM"`) and `"15 Nov 2025 19:30"` yields
(`"15 Nov 2025"`, `"19:30"`). -/

theorem C2_theorem :
    (∀ t : String, parse_row_text t = specParseRow t) ∧
    parse_row_text "Sat 15 November 2025, 7:30pm" =
      ("Sat 15 November 2025", "7:30PM") ∧
    parse_row_text "15 Nov 2025 19:30" = ("15 Nov 2025", "19:30") :=
  ⟨parse_row_text_eq_spec, by decide, by decide⟩

/-- Claim C3: for every record whose date splits into day/month/year or
weekday/day/month/year tokens with numeric day and year and a recognised
month name, and whose time matches `H:MM` with optional trailing AM/PM,
`perf_sort_key` returns `(year, month, day, hour, minute)` with the hour
converted by `hourAdjust` (12 AM to 0, 12 PM stays 12, N PM to N+12 for
N below 12, otherwise unchanged); consequently the 3 November 2025 19:00
record sorts before the 15 November 2025 7:30PM record. -/

theorem C3_theorem :
    (∀ (p : Perf) (d mo y : String) (di mi yi : Int) (h mn : Nat)
        (ap : Option (List Char)),
      (pySplitWs p.date = [d, mo, y] ∨ ∃ wd, pySplitWs p.date = [wd, d, mo, y]) →
      pyInt d = some di →
      MONTH_NUM.lookup (pyLower mo) = some mi →
      pyInt y = some yi →
      sortTimeMatch (despace p.time).data = some (h, mn, ap) →
      perf_sort_key p = (yi, mi, di, hourAdjust (Int.ofNat h) ap, Int.ofNat mn)) ∧
    (∀ h : Int, hourAdjust h none = h) ∧
    (∀ a : List Char, a.map Char.toUpper = ['A', 'M'] → hourAdjust 12 (some a) = 0) ∧
    (∀ a : List Char, a.map Char.toUpper = ['P', 'M'] → hourAdjust 12 (some a) = 12) ∧
    (∀ (a : List Char) (n : Int), n < 12 → a.map Char.toUpper = ['P', 'M'] →
      hourAdjust n (some a) = n + 12) ∧
    keyLt (perf_sort_key ⟨"3 November 2025", "19:00", "", "", ""⟩)
      (perf_sort_key ⟨"15 November 2025", "7:30PM", "", "", ""⟩) ∧
    pySortPerfs
        [⟨"15 November 2025", "7:30PM", "", "", ""⟩,
         ⟨"3 November 2025", "19:00", "", "", ""⟩] =
      [⟨"3 November 2025", "19:00", "", "", ""⟩,
       ⟨"15 November 2025", "7:30PM", "", "", ""⟩] := by
  refine ⟨fun p d mo y di mi yi h mn ap hs hd hmo hy ht =>
      perf_sort_key_of_parse (dateTimeParse_eq hs hd hmo hy ht),
    hourAdjust_none_eq, fun a ha => hourAdjust_am12 ha, fun a ha => hourAdjust_pm12 ha,
    fun a n hn ha => hourAdjust_pm (by omega) ha, by decide, by decide⟩

/-- Claim C3, witness: the main implication applied to the record dated
`"3 November 2025"` at `"19:00"`. -/

theorem C3_witness :
    perf_sort_key ⟨"3 November 2025", "19:00", "", "", ""⟩ = (2025, 11, 3, 19, 0) :=
  C3_theorem.1 ⟨"3 November 2025", "19:00", "", "", ""⟩ "3" "November" "2025"
    3 11 2025 19 0 none (Or.inl (by decide)) (by decide) (by decide) (by decide)
    (by decide)

/-- Claim C4, counterexample: the sentinel key `(9999, 12, 31, 23, 59)`
is not maximal — the well-formed record dated `"1 Jan 10000"` (3 tokens,
recognised month, well-formed time) has a larger key, so the unparsable
`"TBC"` record sorts before it, refuting "sorts after all well-formed
records". -/

theorem C4_counterexample :
    perf_sort_key ⟨"TBC", "", "", "", ""⟩ = (9999, 12, 31, 23, 59) ∧
    perf_sort_key ⟨"1 Jan 10000", "0:30", "", "", ""⟩ = (10000, 1, 1, 0, 30) ∧
    keyLt (perf_sort_key ⟨"TBC", "", "", "", ""⟩)
      (perf_sort_key ⟨"1 Jan 10000", "0:30", "", "", ""⟩) ∧
    pySortPerfs [⟨"1 Jan 10000", "0:30", "", "", ""⟩, ⟨"TBC", "", "", "", ""⟩] =
      [⟨"TBC", "", "", "", ""⟩, ⟨"1 Jan 10000", "0:30", "", "", ""⟩] := by decide

/-- Claim C4 (amended): `perf_sort_key` never raises (it is total) and
returns the fixed sentinel key `(9999, 12, 31, 23, 59)` on every parse
failure (wrong token count, unrecognised month, malformed time), so an
unparsable record sorts after every well-formed record whose key year is
below 9999, deterministically across repeated sorts, without corrupting
the order of well-formed records. -/

theorem C4_theorem :
    (∀ p : Perf, dateTimeParse p = none →
      perf_sort_key p = (9999, 12, 31, 23, 59)) ∧
    (∀ (p q : Perf) (k : Int5), dateTimeParse p = none → dateTimeParse q = some k →
      k.1 < 9999 → keyLt (perf_sort_key q) (perf_sort_key p)) ∧
    perf_sort_key ⟨"TBC", "", "", "", ""⟩ = (9999, 12, 31, 23, 59) ∧
    perf_sort_key ⟨"15 Foo 2025", "19:00", "", "", ""⟩ = (9999, 12, 31, 23, 59) ∧
    perf_sort_key ⟨"15 Nov 2025", "tba", "", "", ""⟩ = (9999, 12, 31, 23, 59) ∧
    pySortPerfs (pySortPerfs
        [⟨"1 Jan 2026", "19:00", "", "", ""⟩, ⟨"TBC", "", "", "", ""⟩,
         ⟨"3 November 2025", "7:30PM", "", "", ""⟩]) =
      pySortPerfs
        [⟨"1 Jan 2026", "19:00", "", "", ""⟩, ⟨"TBC", "", "", "", ""⟩,
         ⟨"3 November 2025", "7:30PM", "", "", ""⟩] ∧
    pySortPerfs
        [⟨"1 Jan 2026", "19:00", "", "", ""⟩, ⟨"TBC", "", "", "", ""⟩,
         ⟨"3 November 2025", "7:30PM", "", "", ""⟩] =
      [⟨"3 November 2025", "7:30PM", "", "", ""⟩,
       ⟨"1 Jan 2026", "19:00", "", "", ""⟩, ⟨"TBC", "", "", "", ""⟩] := by
  refine ⟨fun p hp => perf_sort_key_sentinel hp,
    fun p q k hp hq hk => sentinel_after_wellformed hp hq hk,
    by decide, by decide, by decide, by decide, by decide⟩

/-- Claim C4, witness: the sentinel implication applied to the `"TBC"`
record. -/

theorem C4_witness :
    perf_sort_key ⟨"TBC", "tba", "", "", ""⟩ = (9999, 12, 31, 23, 59) :=
  C4_theorem.1 ⟨"TBC", "tba", "", "", ""⟩ (by decide)

/-- Claim C5: for every page region, the result is the deduplicated
Pass 1 output whenever Pass 1 found at least one record (Pass 2 is not
run), and the deduplicated Pass 2 output exactly when Pass 1 found
nothing; and every Pass 2 record comes from a stripped line of a coarse
container that the row parser matched, is classified with
`hasBookingLink = false`, and carries an empty href. -/

theorem C5_theorem : ∀ f : FrameModel,
    (pass1 f ≠ [] → extract_from_frame f = dedup (pass1 f)) ∧
    (pass1 f = [] → extract_from_frame f = dedup (pass2 f)) ∧
    (∀ p ∈ pass2 f, p.href = "" ∧ p.status = classify_status p.raw false ∧
      (p.date, p.time) = parse_row_text p.raw ∧ p.date ≠ "" ∧ p.time ≠ "" ∧
      ∃ b ∈ f.blocks.take 8, p.raw ∈ pyLines b) := by
  intro f
  refine ⟨extract_from_frame_pass1, extract_from_frame_pass2, fun p hp => ?_⟩
  obtain ⟨b, hb, line, hline, hl⟩ := pass2_mem hp
  obtain ⟨hhref, hraw, hstatus, hdt, hne⟩ := lineToPerf_props hl
  obtain ⟨hd, ht⟩ := both_or_neither hdt hne
  subst hraw
  exact ⟨hhref, hstatus, hdt, hd, ht, b, hb, hline⟩

/-- Claim C5, witness: a region with no structured rows and one coarse
block; Pass 2 runs and its single record has the stated shape. -/

theorem C5_witness :
    extract_from_frame ⟨fun _ => [], ["15 Nov 2025 19:30 Sold Out"]⟩ =
      dedup (pass2 ⟨fun _ => [], ["15 Nov 2025 19:30 Sold Out"]⟩) ∧
    (⟨"15 Nov 2025", "19:30", "Sold out", "",
        "15 Nov 2025 19:30 Sold Out"⟩ : Perf).href = "" ∧
    (⟨"15 Nov 2025", "19:30", "Sold out", "",
        "15 Nov 2025 19:30 Sold Out"⟩ : Perf).date ≠ "" :=
  ⟨(C5_theorem ⟨fun _ => [], ["15 Nov 2025 19:30 Sold Out"]⟩).2.1 (by decide),
   ((C5_theorem ⟨fun _ => [], ["15 Nov 2025 19:30 Sold Out"]⟩).2.2
      ⟨"15 Nov 2025", "19:30", "Sold out", "", "15 Nov 2025 19:30 Sold Out"⟩
      (by decide)).1,
   (((C5_theorem ⟨fun _ => [], ["15 Nov 2025 19:30 Sold Out"]⟩).2.2
      ⟨"15 Nov 2025", "19:30", "Sold out", "", "15 Nov 2025 19:30 Sold Out"⟩
      (by decide)).2.2.2).1⟩

/-- Claim C6: `dedup` returns the subsequence consisting of exactly the
first occurrence of each identity tuple `(date, time, status, href)` in
first-seen relative order, with later duplicates dropped — stated as
equality with the first-occurrence function `specFirstOccs` plus the
sublist property. -/

theorem C6_theorem :
    (∀ xs : List Perf, dedup xs = specFirstOccs xs) ∧
    (∀ xs : List Perf, List.Sublist (dedup xs) xs) :=
  ⟨dedup_eq_specFirstOccs, dedup_sublist⟩

/-- Claim C7: `dedup` is idempotent. -/

theorem C7_theorem : ∀ xs : List Perf, dedup (dedup xs) = dedup xs :=
  dedup_idem

/-- Claim C8, counterexample: the code's booking-hint set is
`("book", "select", "purchase", "choose", "tickets")`, not the claimed
positive-hint words — a link titled `"Reserve"` does not qualify though
the claim says it does, and `"Tickets"` qualifies though the claim says
it does not; moreover a qualifying link without a target does not stop
the search: the second link's target is used. -/

theorem C8_counterexample :
    linkTextQualifies "Reserve" = false ∧
    specPosHints.any (fun w => strHasSub (pyLower "Reserve") w) = true ∧
    linkTextQualifies "Tickets" = true ∧
    specPosHints.any (fun w => strHasSub (pyLower "Tickets") w) = false ∧
    scanLinks [⟨"Book", none⟩, ⟨"Book now", some "/x"⟩] =
      some "https://ticketing.almeida.co.uk/x" := by decide

/-- Claim C8 (amended): a child link qualifies exactly when its visible
text contains one of `"book"`, `"select"`, `"purchase"`, `"choose"`,
`"tickets"` (case-insensitive); the row's link is the first qualifying
link with a present, non-empty target among the first 10 anchors then
the first 10 buttons (a qualifying link without a usable target is
skipped and the search continues); a target beginning with `/` is
resolved against the site origin, any other non-empty target is used
unchanged. -/

theorem C8_theorem :
    (∀ t : String, linkTextQualifies t = true ↔
      ∃ w ∈ (["book", "select", "purchase", "choose", "tickets"] : List String),
        strHasSub (pyLower t) w = true) ∧
    (∀ r : RowEl, rowLink r =
      ((r.anchors.take 10 ++ r.buttons.take 10).findSome? pickLink).getD "") ∧
    (∀ h : String, pyStartsWith h "/" = true →
      resolveHref h = "https://ticketing.almeida.co.uk" ++ h) ∧
    (∀ h : String, pyStartsWith h "/" = false → resolveHref h = h) := by
  refine ⟨fun t => ?_, rowLink_eq, fun h hs => ?_, fun h hs => ?_⟩
  · unfold linkTextQualifies
    rw [List.any_eq_true]
  · unfold resolveHref
    rw [if_pos hs]
  · unfold resolveHref
    rw [if_neg (by simp [hs])]

/-- Claim C8, witness: target resolution applied to a site-relative and
an absolute target. -/

theorem C8_witness :
    resolveHref "/x" = "https://ticketing.almeida.co.uk/x" ∧
    resolveHref "https://other/x" = "https://other/x" :=
  ⟨(C8_theorem.2.2.1 "/x" (by decide)).trans (by decide),
   C8_theorem.2.2.2 "https://other/x" (by decide)⟩

/-- Claim C9, counterexample: `write_summary` interpolates fields
verbatim — a literal pipe inside a record's date appears unescaped in
the emitted row, which then has six cell delimiters instead of the five
of a well-formed four-column row. -/

theorem C9_counterexample :
    summaryRow ⟨"a|b", "19:00", "Unknown", "", ""⟩ =
      "| a|b | 19:00 | Unknown |  |" ∧
    (summaryRow ⟨"a|b", "19:00", "Unknown", "", ""⟩).data.count '|' = 6 ∧
    (summaryRow ⟨"1 Nov 2025", "19:00", "Unknown", "", ""⟩).data.count '|' = 5 := by
  decide

/-- Claim C9 (amended): the summary table contains one row per record
(the sorted list is a permutation of the input) with columns Date, Time,
Status, Link in sort order; fields are interpolated verbatim with no
escaping, so the row's pipe count is five plus the pipes occurring
inside the fields, and a literal pipe inside a field corrupts the
table-cell boundaries of its row. -/

theorem C9_theorem :
    (∀ perfs : List Perf, List.Perm (pySortPerfs perfs) perfs) ∧
    (∀ (cAt : String) (perfs : List Perf), perfs ≠ [] →
      write_summary_lines cAt perfs =
        ["## Ticket Availability\n", "**URL:** " ++ EVENT_URL ++ "\n",
         "**Checked at:** " ++ cAt ++ "\n", ""] ++
        "| Date | Time | Status | Link |" ::
        "|------|------|--------|------|" :: (pySortPerfs perfs).map summaryRow) ∧
    (∀ p : Perf, (summaryRow p).data.count '|' =
      5 + p.date.data.count '|' + p.time.data.count '|' +
        p.status.data.count '|' + p.href.data.count '|') :=
  ⟨pySortPerfs_perm, fun _ _ h => write_summary_table h, summaryRow_pipes⟩

/-- Claim C9, witness: the table shape applied to a one-record list. -/

theorem C9_witness :
    write_summary_lines "now" [⟨"1 Nov 2025", "19:00", "Unknown", "", ""⟩] =
      ["## Ticket Availability\n",
       "**URL:** https://ticketing.almeida.co.uk/events/7992\n",
       "**Checked at:** now\n", "",
       "| Date | Time | Status | Link |", "|------|------|--------|------|",
       "| 1 Nov 2025 | 19:00 | Unknown |  |"] :=
  (C9_theorem.2.1 "now" [⟨"1 Nov 2025", "19:00", "Unknown", "", ""⟩]
      (by decide)).trans (by decide)

/-- Claim C10: `parse_row_text` returns either two empty strings or two
non-empty strings, never exactly one empty component; hence every record
the extraction pipeline emits has a non-empty date and a non-empty
time. -/

theorem C10_theorem :
    (∀ t : String, (parse_row_text t).1 = "" ↔ (parse_row_text t).2 = "") ∧
    (∀ (f : FrameModel) (p : Perf), p ∈ extract_from_frame f →
      p.date ≠ "" ∧ p.time ≠ "") :=
  ⟨parse_both_empty_iff, fun _ _ h => extract_mem_nonempty h⟩

/-- Claim C10, witness: the pipeline conjunct applied to a concrete
region and its emitted record. -/

theorem C10_witness :
    (⟨"15 Nov 2025", "19:30", "Sold out", "",
        "15 Nov 2025 19:30 Sold Out"⟩ : Perf).date ≠ "" ∧
    (⟨"15 Nov 2025", "19:30", "Sold out", "",
        "15 Nov 2025 19:30 Sold Out"⟩ : Perf).time ≠ "" :=
  C10_theorem.2 ⟨fun _ => [], ["15 Nov 2025 19:30 Sold Out"]⟩
    ⟨"15 Nov 2025", "19:30", "Sold out", "", "15 Nov 2025 19:30 Sold Out"⟩
    (by decide)
